import Mathlib

set_option maxRecDepth 8192

/-!
Verification development for the zod-cast repository: a shallow embedding of
the tolerant JSON extractor (`src/internal/json.ts`), the retry loop / tunnel
(`src/index.ts`) and the JSON stream validator, together with theorems about
their behaviour.
-/

namespace ZodCast

/-- JSON values as produced by a structural decoder.  Numbers are kept exactly
as a decimal mantissa/exponent pair, which faithfully records the digits the
decoder saw. -/
inductive Json where
  | jnull
  | jbool (b : Bool)
  | jnum (mantissa : Int) (exponent : Int)
  | jstr (s : String)
  | jarr (items : List Json)
  | jobj (fields : List (String × Json))

/-- Whitespace characters accepted between JSON tokens. -/
def isJsonWs (c : Char) : Bool :=
  c = ' ' || c = '\t' || c = '\n' || c = '\r'

/-- Skip leading JSON whitespace. -/
def jsonSkipWs : List Char → List Char
  | [] => []
  | c :: cs => if isJsonWs c then jsonSkipWs cs else c :: cs

/-- Value of a hexadecimal digit, if the character is one. -/
def hexDigitVal (c : Char) : Option Nat :=
  if '0' ≤ c ∧ c ≤ '9' then some (c.toNat - '0'.toNat)
  else if 'a' ≤ c ∧ c ≤ 'f' then some (c.toNat - 'a'.toNat + 10)
  else if 'A' ≤ c ∧ c ≤ 'F' then some (c.toNat - 'A'.toNat + 10)
  else none

/-- Modelled from the spec: the body of a JSON string literal (the opening
quote already consumed), part of the external structural decoder
(`JSON.parse`) that the repository calls.  Fuel bounds the recursion. -/
def parseStringBody (fuel : Nat) (acc : List Char) (cs : List Char) :
    Except String (String × List Char) :=
  match fuel with
  | 0 => .error "JSON input too long"
  | fuel + 1 =>
    match cs with
    | [] => .error "Unterminated string in JSON"
    | c :: rest =>
      if c = '"' then .ok (String.mk acc.reverse, rest)
      else if c = '\\' then
        match rest with
        | [] => .error "Unterminated string escape in JSON"
        | e :: rest2 =>
          if e = '"' then parseStringBody fuel ('"' :: acc) rest2
          else if e = '\\' then parseStringBody fuel ('\\' :: acc) rest2
          else if e = '/' then parseStringBody fuel ('/' :: acc) rest2
          else if e = 'b' then parseStringBody fuel ('\x08' :: acc) rest2
          else if e = 'f' then parseStringBody fuel ('\x0c' :: acc) rest2
          else if e = 'n' then parseStringBody fuel ('\n' :: acc) rest2
          else if e = 'r' then parseStringBody fuel ('\x0d' :: acc) rest2
          else if e = 't' then parseStringBody fuel ('\t' :: acc) rest2
          else if e = 'u' then
            match rest2 with
            | a :: b :: c2 :: d :: rest3 =>
              match hexDigitVal a, hexDigitVal b, hexDigitVal c2, hexDigitVal d with
              | some ha, some hb, some hc, some hd =>
                parseStringBody fuel
                  (Char.ofNat (((ha * 16 + hb) * 16 + hc) * 16 + hd) :: acc) rest3
              | _, _, _, _ => .error "Bad Unicode escape in JSON"
            | _ => .error "Bad Unicode escape in JSON"
          else .error "Bad escape in JSON"
      else parseStringBody fuel (c :: acc) rest

/-- Accumulate decimal digits into a natural number. -/
def digitsToNat (acc : Nat) : List Char → Nat
  | [] => acc
  | c :: cs => digitsToNat (acc * 10 + (c.toNat - '0'.toNat)) cs

/-- Modelled from the spec: a JSON numeric literal, part of the external
structural decoder (`JSON.parse`) that the repository calls. -/
def parseNumber (cs : List Char) : Except String (Json × List Char) :=
  let (neg, cs1) : Bool × List Char :=
    match cs with
    | '-' :: t => (true, t)
    | _ => (false, cs)
  let intDigits := cs1.takeWhile Char.isDigit
  let rest1 := cs1.dropWhile Char.isDigit
  if intDigits.isEmpty then .error "Unexpected token in JSON"
  else if 1 < intDigits.length ∧ intDigits.head? = some '0' then
    .error "Unexpected number in JSON"
  else
    match
      (match rest1 with
       | '.' :: t =>
         let fd := t.takeWhile Char.isDigit
         if fd.isEmpty then Except.error "Unterminated fractional number in JSON"
         else Except.ok (fd, t.dropWhile Char.isDigit)
       | _ => Except.ok (([] : List Char), rest1)) with
    | .error m => .error m
    | .ok (fracDigits, rest2) =>
      match
        (match rest2 with
         | e :: t =>
           if e = 'e' ∨ e = 'E' then
             let (esign, t2) : Int × List Char :=
               match t with
               | '+' :: u => (1, u)
               | '-' :: u => (-1, u)
               | _ => (1, t)
             let ed := t2.takeWhile Char.isDigit
             if ed.isEmpty then Except.error "Exponent part is missing a number in JSON"
             else Except.ok (esign * Int.ofNat (digitsToNat 0 ed), t2.dropWhile Char.isDigit)
           else Except.ok ((0 : Int), rest2)
         | [] => Except.ok ((0 : Int), rest2)) with
      | .error m => .error m
      | .ok (ex, rest3) =>
        let mantNat := digitsToNat 0 (intDigits ++ fracDigits)
        let mant : Int := if neg then -(Int.ofNat mantNat) else Int.ofNat mantNat
        .ok (.jnum mant (ex - Int.ofNat fracDigits.length), rest3)

mutual

/-- Modelled from the spec: the external structural decoder (`JSON.parse`)
used by `extractAndParseJson`; parses one JSON value and returns the rest of
the input. -/
def parseValue (fuel : Nat) (cs : List Char) : Except String (Json × List Char) :=
  match fuel with
  | 0 => .error "JSON input too long"
  | fuel + 1 =>
    match cs with
    | [] => .error "Unexpected end of JSON input"
    | c :: rest =>
      if c = '\x7b' then
        match jsonSkipWs rest with
        | '\x7d' :: r => .ok (.jobj [], r)
        | cs2 => parseMembers fuel cs2 []
      else if c = '[' then
        match jsonSkipWs rest with
        | ']' :: r => .ok (.jarr [], r)
        | cs2 => parseItems fuel cs2 []
      else if c = '"' then
        match parseStringBody (rest.length + 1) [] rest with
        | .error m => .error m
        | .ok (s, rest2) => .ok (.jstr s, rest2)
      else if c = 't' then
        match rest with
        | 'r' :: 'u' :: 'e' :: r => .ok (.jbool true, r)
        | _ => .error "Unexpected token in JSON"
      else if c = 'f' then
        match rest with
        | 'a' :: 'l' :: 's' :: 'e' :: r => .ok (.jbool false, r)
        | _ => .error "Unexpected token in JSON"
      else if c = 'n' then
        match rest with
        | 'u' :: 'l' :: 'l' :: r => .ok (.jnull, r)
        | _ => .error "Unexpected token in JSON"
      else if c = '-' ∨ c.isDigit then parseNumber cs
      else .error "Unexpected token in JSON"

/-- Modelled from the spec: the members of a JSON object (positioned at the
start of a member), part of the external structural decoder.  A comma must be
followed by another member, so trailing commas are rejected. -/
def parseMembers (fuel : Nat) (cs : List Char) (acc : List (String × Json)) :
    Except String (Json × List Char) :=
  match fuel with
  | 0 => .error "JSON input too long"
  | fuel + 1 =>
    match cs with
    | '"' :: rest =>
      match parseStringBody (rest.length + 1) [] rest with
      | .error m => .error m
      | .ok (key, rest2) =>
        match jsonSkipWs rest2 with
        | ':' :: rest3 =>
          match parseValue fuel (jsonSkipWs rest3) with
          | .error m => .error m
          | .ok (v, rest4) =>
            match jsonSkipWs rest4 with
            | ',' :: rest5 => parseMembers fuel (jsonSkipWs rest5) (acc ++ [(key, v)])
            | '\x7d' :: rest5 => .ok (.jobj (acc ++ [(key, v)]), rest5)
            | _ => .error "Expected comma or closing brace in JSON"
        | _ => .error "Expected colon in JSON"
    | _ => .error "Expected property name or closing brace in JSON"

/-- Modelled from the spec: the items of a JSON array (positioned at the start
of an item), part of the external structural decoder.  A comma must be
followed by another item, so trailing commas are rejected. -/
def parseItems (fuel : Nat) (cs : List Char) (acc : List Json) :
    Except String (Json × List Char) :=
  match fuel with
  | 0 => .error "JSON input too long"
  | fuel + 1 =>
    match parseValue fuel cs with
    | .error m => .error m
    | .ok (v, rest) =>
      match jsonSkipWs rest with
      | ',' :: rest2 => parseItems fuel (jsonSkipWs rest2) (acc ++ [v])
      | ']' :: rest2 => .ok (.jarr (acc ++ [v]), rest2)
      | _ => .error "Expected comma or closing bracket in JSON"

end

/-- Modelled from the spec: the external structural decoder `JSON.parse`,
applied to a whole string — parse one value and require only whitespace
afterwards. -/
def jsonParse (s : String) : Except String Json :=
  match parseValue (s.data.length + 1) (jsonSkipWs s.data) with
  | .error m => .error m
  | .ok (v, rest) =>
    if (jsonSkipWs rest).isEmpty then .ok v
    else .error "Unexpected non-whitespace character after JSON data"

/-! ## The JSON extractor (`src/internal/json.ts`) -/

/-- `findJsonStartIndex` from `src/internal/json.ts`: index of the earlier of
the first `\x7b` and the first `[`. -/
def findJsonStartIndex (text : List Char) : Option Nat :=
  let obj := text.findIdx? (· = '\x7b')
  let arr := text.findIdx? (· = '[')
  match obj, arr with
  | none, none => none
  | none, some a => some a
  | some o, none => some o
  | some o, some a => some (min o a)

/-- The scanning loop of `extractJsonText`: walks the characters from the
start index, tracking string-literal state, escape state and nesting depth;
returns the offset of the character at which depth returns to zero. -/
def extractScan (cs : List Char) (inString escaped : Bool) (depth : Int) :
    Option Nat :=
  match cs with
  | [] => none
  | c :: rest =>
    if inString then
      if escaped then (extractScan rest true false depth).map (· + 1)
      else if c = '\\' then (extractScan rest true true depth).map (· + 1)
      else if c = '"' then (extractScan rest false false depth).map (· + 1)
      else (extractScan rest true false depth).map (· + 1)
    else if c = '"' then (extractScan rest true false depth).map (· + 1)
    else if c = '\x7b' ∨ c = '[' then (extractScan rest false false (depth + 1)).map (· + 1)
    else if c = '\x7d' ∨ c = ']' then
      if depth - 1 = 0 then some 0
      else (extractScan rest false false (depth - 1)).map (· + 1)
    else (extractScan rest false false depth).map (· + 1)

/-- `extractJsonText` from `src/internal/json.ts`: the first balanced JSON
object/array span of the text, if any. -/
def extractJsonText (text : String) : Option String :=
  match findJsonStartIndex text.data with
  | none => none
  | some start =>
    match extractScan (text.data.drop start) false false 0 with
    | none => none
    | some i => some (String.mk ((text.data.drop start).take (i + 1)))

/-- `JsonExtractionResult` from `src/internal/json.ts`. -/
inductive JsonExtractionResult where
  | found (jsonText : String) (value : Json)
  | noJson (message : String)
  | parseError (message : String) (jsonText : String)

/-- `extractAndParseJson` from `src/internal/json.ts`. -/
def extractAndParseJson (text : String) : JsonExtractionResult :=
  match extractJsonText text with
  | none => .noJson "No JSON object/array found in model output."
  | some jsonText =>
    match jsonParse jsonText with
    | .ok value => .found jsonText value
    | .error m => .parseError m jsonText

/-! ## Strings: the JavaScript `trim`, `slice` and substring search used by the
tunnel.  `jsTrim` models `String.prototype.trim`, `strTake` models
`slice(0, n)`. -/

/-- Characters stripped by `String.prototype.trim`. -/
def isTrimWs (c : Char) : Bool :=
  c = ' ' || c = '\t' || c = '\n' || c = '\x0d' || c = '\x0b' || c = '\x0c'

/-- Model of JavaScript `String.prototype.trim`: drop the trimmed whitespace
from both ends. -/
def jsTrim (s : String) : String :=
  String.mk (List.rdropWhile isTrimWs (s.data.dropWhile isTrimWs))

/-- Model of JavaScript `slice(0, n)`. -/
def strTake (s : String) (n : Nat) : String :=
  String.mk (s.data.take n)

/-- Whether `pre` is a leading segment of `l`. -/
def charsStartWith : List Char → List Char → Bool
  | [], _ => true
  | _ :: _, [] => false
  | a :: as, b :: bs => a = b && charsStartWith as bs

/-- Whether `needle` occurs contiguously somewhere in the list. -/
def charsContain (needle : List Char) : List Char → Bool
  | [] => charsStartWith needle []
  | b :: bs => charsStartWith needle (b :: bs) || charsContain needle bs

/-- Whether `needle` occurs as a contiguous substring of `hay`. -/
def strContains (hay needle : String) : Bool :=
  charsContain needle.data hay.data

/-! ## Schema validation (the external Zod collaborator) -/

/-- One issue of a failed schema validation, as consumed by
`formatZodIssues`. -/
structure ZodIssue where
  path : List String
  message : String

/-- `formatZodIssues` from `src/internal/json.ts`: one bullet line per issue,
keyed by the dotted path or `<root>`. -/
def formatZodIssues (issues : List ZodIssue) : String :=
  String.intercalate "\n"
    (issues.map (fun issue =>
      "- " ++ (if issue.path.isEmpty then "<root>" else String.intercalate "." issue.path)
        ++ ": " ++ issue.message))

/-- Modelled from the spec: the external schema collaborator's safe-validate
operation (`schema.safeParse`).  The argument is `none` when the JavaScript
code passes `undefined`; the result is the validated (possibly transformed)
data or the list of issues. -/
def Validator : Type := Option Json → Except (List ZodIssue) Json

/-! ## The tunnel (`src/index.ts`) -/

/-- `TunnelOptions` from `src/index.ts`, with the defaults of `createTunnel`
already applied. -/
structure TunnelOptions where
  maxRetries : Nat := 2
  systemPrompt : Option String := none
  schemaName : String := "Output"
  maxFailureOutputChars : Nat := 4000

/-- `TunnelFailure` from `src/index.ts`. -/
inductive TunnelFailure where
  | noJson (message raw : String)
  | invalidJson (message raw : String) (jsonText : Option String)
  | schemaFail (message raw jsonText issues : String)

instance : Inhabited TunnelFailure := ⟨.noJson "" ""⟩

/-- The `message` field of a failure. -/
def TunnelFailure.message : TunnelFailure → String
  | .noJson m _ => m
  | .invalidJson m _ _ => m
  | .schemaFail m _ _ _ => m

/-- The `raw` field of a failure. -/
def TunnelFailure.raw : TunnelFailure → String
  | .noJson _ r => r
  | .invalidJson _ r _ => r
  | .schemaFail _ r _ _ => r

/-- `TunnelRunContext` from `src/index.ts`. -/
structure TunnelRunContext where
  attempt : Nat
  maxRetries : Nat
  lastFailure : Option TunnelFailure

/-- `STRICT_RULES` from `src/index.ts`; `schemaTs` is the pre-rendered
TypeScript description of the schema. -/
def STRICT_RULES (schemaTs : String) : String :=
  String.intercalate "\n"
    ["Return ONLY a valid JSON value that can be parsed by JSON.parse().",
     "Do not wrap the JSON in Markdown fences.",
     "The JSON MUST conform to this TypeScript definition:",
     "```ts\n" ++ schemaTs ++ "\n```"]

/-- `buildBasePrompt` from `src/index.ts`. -/
def buildBasePrompt (opts : TunnelOptions) (schemaTs : String) (userPrompt : String) : String :=
  let parts : List String :=
    (match opts.systemPrompt with
     | some sp => if jsTrim sp ≠ "" then [jsTrim sp] else []
     | none => []) ++
    [STRICT_RULES schemaTs] ++
    (if jsTrim userPrompt ≠ "" then [jsTrim userPrompt] else [])
  String.intercalate "\n\n" parts

/-- `truncate` from `src/index.ts`. -/
def truncate (opts : TunnelOptions) (s : String) : String :=
  if s.data.length ≤ opts.maxFailureOutputChars then s
  else strTake s opts.maxFailureOutputChars ++ "\n...<truncated>"

/-- `buildFixPrompt` from `src/index.ts`. -/
def buildFixPrompt (opts : TunnelOptions) (schemaTs : String) (userPrompt : String)
    (failure : TunnelFailure) : String :=
  let parts : List String :=
    (match opts.systemPrompt with
     | some sp => if jsTrim sp ≠ "" then [jsTrim sp] else []
     | none => []) ++
    ["Your previous response was invalid.",
     "Return ONLY corrected JSON.",
     STRICT_RULES schemaTs,
     "Validation problems:\n" ++ failure.message] ++
    (match failure with
     | .schemaFail _ _ _ issues => ["Schema issues:\n" ++ issues]
     | _ => []) ++
    (if jsTrim userPrompt ≠ "" then ["Original request context:\n" ++ jsTrim userPrompt] else []) ++
    ["Previous output:\n```text\n" ++ truncate opts failure.raw ++ "\n```"]
  String.intercalate "\n\n" parts

/-- `failureFromRaw` from `src/index.ts`: classify a raw runner output as one
of the three failure kinds, or `none` on success. -/
def failureFromRaw (validate : Validator) (raw : String) : Option TunnelFailure :=
  match extractAndParseJson raw with
  | .noJson msg => some (.noJson msg raw)
  | .parseError msg jsonText => some (.invalidJson msg raw (some jsonText))
  | .found jsonText value =>
    match validate (some value) with
    | .ok _ => none
    | .error err =>
      some (.schemaFail "Output JSON did not match the schema." raw jsonText
        (formatZodIssues err))

/-- One call of the `injectSchema` closure from `src/index.ts` at a given
attempt: returns the updated locked intent and the produced prompt.  The
`lastFailure.getD default` mirrors the source's non-null assertion
`lastFailure!`, which the loop guarantees is populated for attempts > 0. -/
def injectSchemaStep (opts : TunnelOptions) (schemaTs : String) (attempt : Nat)
    (lastFailure : Option TunnelFailure) (intent : String) (userPrompt : String) :
    String × String :=
  let trimmed := jsTrim userPrompt
  let intent2 := if attempt = 0 ∧ trimmed ≠ "" then trimmed else intent
  let effectivePrompt := if attempt = 0 then trimmed else intent2
  let prompt :=
    if attempt = 0 then buildBasePrompt opts schemaTs effectivePrompt
    else buildFixPrompt opts schemaTs effectivePrompt (lastFailure.getD default)
  (intent2, prompt)

/-- A sequence of `injectSchema` calls within one attempt: threads the locked
intent through the calls and collects the produced prompts. -/
def runInjectCalls (opts : TunnelOptions) (schemaTs : String) (attempt : Nat)
    (lastFailure : Option TunnelFailure) :
    String → List String → String × List String
  | intent, [] => (intent, [])
  | intent, a :: as =>
    let step := injectSchemaStep opts schemaTs attempt lastFailure intent a
    let rest := runInjectCalls opts schemaTs attempt lastFailure step.1 as
    (rest.1, step.2 :: rest.2)

/-- A runner, modelled by the arguments it feeds to `injectSchema` (decided by
the attempt context) and by the raw text it returns — or the error it throws —
given the context and the prompts `injectSchema` produced. -/
structure RunnerModel (ε : Type) where
  injectArgs : TunnelRunContext → List String
  output : TunnelRunContext → List String → Except ε String

/-- The ways `run` can fail: a runner error propagated uncaught, the
`TunnelMaxRetriesError`, or an exception thrown by the final `schema.parse`
(provably unreachable, see `successResult_of_no_failure`). -/
inductive RunError (ε : Type) where
  | runnerError (e : ε)
  | maxRetries (message : String) (failures : List TunnelFailure)
  | schemaParseThrow (issues : List ZodIssue)

/-- The success branch of `run` in `src/index.ts`: re-extract the raw text and
feed `schema.parse` the extracted value (or `undefined` when extraction
fails). -/
def successResult {ε : Type} (validate : Validator) (raw : String) :
    Except (RunError ε) Json :=
  match extractAndParseJson raw with
  | .found _ value =>
    match validate (some value) with
    | .ok data => .ok data
    | .error issues => .error (.schemaParseThrow issues)
  | _ =>
    match validate none with
    | .ok data => .ok data
    | .error issues => .error (.schemaParseThrow issues)

/-- Observable record of one loop iteration: the context it ran under, the
locked intent at its start, the `injectSchema` calls and the prompts they
produced, the runner's outcome, and the failure recorded (if any). -/
structure AttemptRecord (ε : Type) where
  ctx : TunnelRunContext
  intentBefore : String
  args : List String
  prompts : List String
  result : Except ε String
  failure : Option TunnelFailure

/-- The retry loop of `run` from `src/index.ts`, with fuel
`maxRetries + 1 - attempt`; returns the trace of executed attempts together
with the run's outcome. -/
def runGo {ε : Type} (opts : TunnelOptions) (schemaTs : String) (validate : Validator)
    (runner : RunnerModel ε) :
    Nat → Nat → String → Option TunnelFailure → List (AttemptRecord ε) →
    List (AttemptRecord ε) × Except (RunError ε) Json
  | 0, _, _, _, recs =>
    (recs,
     .error (.maxRetries
       ("Failed to produce valid output after " ++ toString (opts.maxRetries + 1)
         ++ " attempts.")
       (recs.filterMap (·.failure))))
  | fuel + 1, attempt, intent, lastF, recs =>
    let ctx : TunnelRunContext := ⟨attempt, opts.maxRetries, lastF⟩
    let args := runner.injectArgs ctx
    let ip := runInjectCalls opts schemaTs attempt lastF intent args
    match runner.output ctx ip.2 with
    | .error e =>
      (recs ++ [⟨ctx, intent, args, ip.2, .error e, none⟩], .error (.runnerError e))
    | .ok raw =>
      match failureFromRaw validate raw with
      | none =>
        (recs ++ [⟨ctx, intent, args, ip.2, .ok raw, none⟩], successResult validate raw)
      | some f =>
        runGo opts schemaTs validate runner fuel (attempt + 1) ip.1 (some f)
          (recs ++ [⟨ctx, intent, args, ip.2, .ok raw, some f⟩])

/-- `run` from `src/index.ts`: at most `maxRetries + 1` attempts starting from
attempt 0, empty locked intent, no last failure. -/
def run {ε : Type} (opts : TunnelOptions) (schemaTs : String) (validate : Validator)
    (runner : RunnerModel ε) : List (AttemptRecord ε) × Except (RunError ε) Json :=
  runGo opts schemaTs validate runner (opts.maxRetries + 1) 0 "" none []

/-! ## The stream validator (`createJsonStreamValidator`) -/

/-- `StreamValidationResult` from the stream-validator source file. -/
inductive StreamValidationResult where
  | noJsonYet (buffer : String)
  | invalidJson (buffer message : String) (jsonText : Option String)
  | invalidSchema (buffer message issues jsonText : String)
  | valid (buffer : String) (data : Json) (jsonText : String)

/-- The body of `push` after the chunk has been appended: classify the full
buffer, exactly as `createJsonStreamValidator` does. -/
def streamClassify (validate : Validator) (buf : String) : StreamValidationResult :=
  match extractAndParseJson buf with
  | .noJson _ => .noJsonYet buf
  | .parseError msg jsonText => .invalidJson buf msg (some jsonText)
  | .found jsonText value =>
    match validate (some value) with
    | .ok data => .valid buf data jsonText
    | .error err =>
      .invalidSchema buf "Output JSON did not match the schema." (formatZodIssues err)
        jsonText

/-- `push` from `createJsonStreamValidator`: append the chunk to the buffer
and classify the result. -/
def streamPush (validate : Validator) (buf chunk : String) :
    String × StreamValidationResult :=
  let b := buf ++ chunk
  (b, streamClassify validate b)

/-- Push a sequence of chunks, collecting every push's result. -/
def streamPushAll (validate : Validator) :
    String → List String → String × List StreamValidationResult
  | buf, [] => (buf, [])
  | buf, c :: cs =>
    let pr := streamPush validate buf c
    let rest := streamPushAll validate pr.1 cs
    (rest.1, pr.2 :: rest.2)

/-! ## Spec-side helper definitions used to state the claims -/

/-- The value that the first extraction-plus-validation inside
`failureFromRaw` accepts, if it accepts one. -/
def firstValidated (validate : Validator) (raw : String) : Option Json :=
  match extractAndParseJson raw with
  | .found _ value =>
    match validate (some value) with
    | .ok d => some d
    | .error _ => none
  | _ => none

/-- The trimmed text of the last argument whose trim is non-empty. -/
def lastNonEmptyTrim : List String → Option String
  | [] => none
  | a :: as =>
    match lastNonEmptyTrim as with
    | some t => some t
    | none => if jsTrim a ≠ "" then some (jsTrim a) else none

/-- The loop invariant of `runGo` stated as a predicate on traces: each record
ran under the context, locked intent and `injectSchema` arguments that the
loop threading dictates, and the next record continues from the updated
intent and this record's failure. -/
def traceChain {ε : Type} (opts : TunnelOptions) (schemaTs : String)
    (runner : RunnerModel ε) :
    String → Option TunnelFailure → Nat → List (AttemptRecord ε) → Prop
  | _, _, _, [] => True
  | intent, lastF, attempt, r :: rs =>
    r.ctx = ⟨attempt, opts.maxRetries, lastF⟩ ∧
    r.intentBefore = intent ∧
    r.args = runner.injectArgs r.ctx ∧
    r.prompts = (runInjectCalls opts schemaTs attempt lastF intent r.args).2 ∧
    traceChain opts schemaTs runner
      (runInjectCalls opts schemaTs attempt lastF intent r.args).1 r.failure (attempt + 1) rs

/-! ## Concrete instances used to evaluate the theorems -/

/-- A validator accepting any defined value unchanged (as `z.unknown()` would)
and rejecting `undefined`. -/
def acceptAllValidator : Validator := fun v =>
  match v with
  | some j => .ok j
  | none => .error [⟨[], "Required"⟩]

/-- A validator rejecting every value. -/
def rejectAllValidator : Validator := fun _ =>
  .error [⟨["a"], "Expected number, received string"⟩]

/-- A validator accepting exactly one-field objects whose field `a` holds a
number. -/
def fieldANumberValidator : Validator := fun v =>
  match v with
  | some (Json.jobj [(k, Json.jnum m e)]) =>
    if k = "a" then .ok (Json.jobj [(k, Json.jnum m e)])
    else .error [⟨["a"], "Required"⟩]
  | _ => .error [⟨["a"], "Expected number, received string"⟩]

/-- A runner calling `injectSchema` once per attempt and always answering with
prose that contains no JSON. -/
def proseRunner : RunnerModel Unit :=
  ⟨fun _ => ["extract the user"], fun _ _ => .ok "no json at all"⟩

/-- A runner that returns a schema-mismatching object on attempt 0 and a
conforming one from attempt 1 on. -/
def recoveringRunner : RunnerModel Unit :=
  ⟨fun _ => ["extract the user"],
   fun ctx _ => .ok (if ctx.attempt = 0 then "oops \x7b\"a\": \"x\"\x7d" else "\x7b\"a\": 1\x7d")⟩

/-- A runner that supplies different `injectSchema` text on later attempts. -/
def fickleRunner : RunnerModel Unit :=
  ⟨fun ctx => [if ctx.attempt = 0 then "  original intent  " else "different text"],
   fun _ _ => .ok "no json at all"⟩

/-- A runner that calls `injectSchema` several times during attempt 0. -/
def multiCallRunner : RunnerModel Unit :=
  ⟨fun ctx => if ctx.attempt = 0 then ["first", "  ", "second  ", ""] else ["later"],
   fun _ _ => .ok "no json at all"⟩

/-- A runner that fails validation on attempt 0 and throws on attempt 1. -/
def throwingRunner : RunnerModel String :=
  ⟨fun _ => ["extract the user"],
   fun ctx _ => if ctx.attempt = 0 then .ok "no json at all" else .error "network down"⟩

/-- Options with a small truncation threshold, used to exhibit the truncation
marker collision. -/
def collisionOpts : TunnelOptions := ⟨2, none, "Output", 5⟩

/-- A raw output that coincides with its own truncation: five characters
followed by the truncation marker. -/
def collisionRaw : String := "aaaaa\n...<truncated>"

/-! ## Helper lemmas about trimming -/

theorem dropWhile_rdropWhile_dropWhile (p : Char → Bool) (l : List Char) :
    List.dropWhile p (List.rdropWhile p (List.dropWhile p l)) =
      List.rdropWhile p (List.dropWhile p l) := by
  obtain ⟨t, ht⟩ := List.rdropWhile_prefix p (List.dropWhile p l)
  cases hm : List.rdropWhile p (List.dropWhile p l) with
  | nil => simp
  | cons x xs =>
    rw [hm, List.cons_append] at ht
    have hidem := List.dropWhile_idempotent p l
    rw [← ht, List.dropWhile_cons] at hidem
    by_cases hx : p x = true
    · rw [if_pos hx] at hidem
      have hle := (List.dropWhile_sublist (l := xs ++ t) p).length_le
      rw [hidem] at hle
      simp at hle
    · simp [List.dropWhile_cons, hx]

/-- JavaScript `trim` is idempotent. -/
theorem jsTrim_idem (s : String) : jsTrim (jsTrim s) = jsTrim s := by
  show String.mk (List.rdropWhile isTrimWs
      ((List.rdropWhile isTrimWs (s.data.dropWhile isTrimWs)).dropWhile isTrimWs)) = jsTrim s
  rw [dropWhile_rdropWhile_dropWhile, List.rdropWhile_idempotent]
  rfl

/-! ## Helper lemmas about the extractor -/

theorem findJsonStartIndex_eq_none (l : List Char)
    (h : ∀ c ∈ l, c ≠ '\x7b' ∧ c ≠ '[') : findJsonStartIndex l = none := by
  have h1 : l.findIdx? (· = '\x7b') = none :=
    List.findIdx?_eq_none_iff.mpr (by intro x hx; simpa using (h x hx).1)
  have h2 : l.findIdx? (· = '[') = none :=
    List.findIdx?_eq_none_iff.mpr (by intro x hx; simpa using (h x hx).2)
  simp only [findJsonStartIndex, h1, h2]

theorem extractJsonText_eq_none_of_no_start (text : String)
    (h : findJsonStartIndex text.data = none) : extractJsonText text = none := by
  unfold extractJsonText
  rw [h]

/-! ## Claim C4 -/

/-- Claim C4: `extractAndParseJson` yields `noJson` when the text has no brace
and no bracket, and also whenever the depth scan never returns to zero; when a
span is found it is the substring from the start index through the first
position where depth returns to zero inclusive, and the final result is
`parseError` with the decoder's message and the exact span text when the span
fails to decode, `found` with the span and value when it decodes.  Concrete
cases: braces inside string literals do not terminate the span early, and
`"\x7b\"a\": 1,\x7d"` yields `parseError` carrying that exact span. -/
theorem claim_C4_extract_and_parse (text : String) :
    ((∀ c ∈ text.data, c ≠ '\x7b' ∧ c ≠ '[') →
        extractAndParseJson text = .noJson "No JSON object/array found in model output.") ∧
    (extractJsonText text = none →
        extractAndParseJson text = .noJson "No JSON object/array found in model output.") ∧
    (∀ start, findJsonStartIndex text.data = some start →
        ∀ i, extractScan (text.data.drop start) false false 0 = some i →
          extractJsonText text = some (String.mk ((text.data.drop start).take (i + 1)))) ∧
    (∀ span, extractJsonText text = some span →
        (∀ m, jsonParse span = .error m → extractAndParseJson text = .parseError m span) ∧
        (∀ v, jsonParse span = .ok v → extractAndParseJson text = .found span v)) ∧
    extractJsonText "pre \x7b\"a\": \"\x7bnot json\x7d\"\x7d post" =
      some "\x7b\"a\": \"\x7bnot json\x7d\"\x7d" ∧
    extractAndParseJson "\x7b\"a\": 1,\x7d" =
      .parseError "Expected property name or closing brace in JSON" "\x7b\"a\": 1,\x7d" := by
  refine ⟨?_, ?_, ?_, ?_, by rfl, by rfl⟩
  · intro h
    unfold extractAndParseJson
    rw [extractJsonText_eq_none_of_no_start text (findJsonStartIndex_eq_none text.data h)]
  · intro h
    unfold extractAndParseJson
    rw [h]
  · intro start hs i hi
    simp only [extractJsonText, hs, hi]
  · intro span hspan
    constructor
    · intro m hm
      simp only [extractAndParseJson, hspan, hm]
    · intro v hv
      simp only [extractAndParseJson, hspan, hv]

/-- Witness for C4 at the concrete input `"it is sunny"`. -/
theorem claim_C4_witness :
    (∀ c ∈ ("it is sunny").data, c ≠ '\x7b' ∧ c ≠ '[') ∧
    extractAndParseJson "it is sunny" = .noJson "No JSON object/array found in model output." :=
  ⟨by decide, (claim_C4_extract_and_parse "it is sunny").1 (by decide)⟩

/-! ## Claim C7 -/

/-- Claim C7 counterexample: a corrective prompt CAN contain the full
untruncated raw output even though the output is strictly longer than
`maxFailureOutputChars`: when the raw output happens to be its own
truncation (its first `maxFailureOutputChars` characters followed by the
truncation marker), the prompt embeds it unchanged. -/
theorem claim_C7_counterexample :
    collisionRaw.data.length > collisionOpts.maxFailureOutputChars ∧
    truncate collisionOpts collisionRaw = collisionRaw ∧
    strContains
      (buildFixPrompt collisionOpts "T" "" (.noJson "m" collisionRaw))
      collisionRaw = true :=
  ⟨by decide, by rfl, by rfl⟩

/-- Claim C7 amended: the corrective prompt embeds `truncate` of the previous
raw output as its final part; when the output exceeds
`maxFailureOutputChars` the embedded text is the first
`maxFailureOutputChars` characters followed by the truncation marker — which
differs from the full output unless the output happens to equal exactly that
string — and when the output is within the limit it is embedded in full with
no marker. -/
theorem claim_C7_truncation (opts : TunnelOptions) (ts userPrompt : String)
    (failure : TunnelFailure) :
    (∃ parts, buildFixPrompt opts ts userPrompt failure =
        String.intercalate "\n\n"
          (parts ++ ["Previous output:\n```text\n" ++ truncate opts failure.raw ++ "\n```"])) ∧
    (failure.raw.data.length ≤ opts.maxFailureOutputChars →
      truncate opts failure.raw = failure.raw) ∧
    (opts.maxFailureOutputChars < failure.raw.data.length →
      truncate opts failure.raw =
        strTake failure.raw opts.maxFailureOutputChars ++ "\n...<truncated>") ∧
    (opts.maxFailureOutputChars < failure.raw.data.length →
      failure.raw ≠ strTake failure.raw opts.maxFailureOutputChars ++ "\n...<truncated>" →
      truncate opts failure.raw ≠ failure.raw) := by
  refine ⟨⟨_, rfl⟩, ?_, ?_, ?_⟩
  · intro h
    unfold truncate
    rw [if_pos h]
  · intro h
    unfold truncate
    rw [if_neg (by omega)]
  · intro h hne
    unfold truncate
    rw [if_neg (by omega)]
    exact fun hc => hne hc.symm

/-- Witness for C7 (amended) at a concrete over-long raw output. -/
theorem claim_C7_truncation_witness :
    collisionOpts.maxFailureOutputChars < ("abcdefgh" : String).data.length ∧
    truncate collisionOpts "abcdefgh" =
      strTake "abcdefgh" collisionOpts.maxFailureOutputChars ++ "\n...<truncated>" :=
  ⟨by decide,
   (claim_C7_truncation collisionOpts "T" "" (.noJson "m" "abcdefgh")).2.2.1 (by decide)⟩

/-! ## Claim C9 -/

theorem successResult_of_no_failure {ε : Type} (validate : Validator) (raw : String)
    (h : failureFromRaw validate raw = none) :
    ∃ d, firstValidated validate raw = some d ∧
      successResult (ε := ε) validate raw = .ok d := by
  cases hx : extractAndParseJson raw with
  | noJson m => simp [failureFromRaw, hx] at h
  | parseError m j => simp [failureFromRaw, hx] at h
  | found j v =>
    cases hv : validate (some v) with
    | error e => simp [failureFromRaw, hx, hv] at h
    | ok d =>
      refine ⟨d, ?_, ?_⟩ <;> simp [firstValidated, successResult, hx, hv]

/-- Claim C9: when the first extraction-plus-validation inside `failureFromRaw`
succeeds, the success path of `run` — which re-extracts and re-parses the raw
text and validates again — returns exactly the value the first validation
already produced; in particular the redundant reparse can never make the
final `schema.parse` throw. -/
theorem claim_C9_redundant_reparse (ε : Type) (validate : Validator) (raw : String)
    (h : failureFromRaw validate raw = none) :
    ∃ d, firstValidated validate raw = some d ∧
      successResult (ε := ε) validate raw = .ok d := by
  exact successResult_of_no_failure validate raw h

/-- Witness for C9 at a concrete raw output accepted by the validator. -/
theorem claim_C9_witness :
    failureFromRaw acceptAllValidator "\x7b\"a\": 1\x7d" = none ∧
    ∃ d, firstValidated acceptAllValidator "\x7b\"a\": 1\x7d" = some d ∧
      successResult (ε := Unit) acceptAllValidator "\x7b\"a\": 1\x7d" = .ok d :=
  ⟨by rfl, claim_C9_redundant_reparse Unit acceptAllValidator "\x7b\"a\": 1\x7d" (by rfl)⟩

/-! ## Helper lemmas about the injectSchema threading -/

theorem injectSchemaStep_pos (opts : TunnelOptions) (ts : String) (attempt : Nat)
    (h : attempt ≠ 0) (lastF : Option TunnelFailure) (intent u : String) :
    injectSchemaStep opts ts attempt lastF intent u =
      (intent, buildFixPrompt opts ts intent (lastF.getD default)) := by
  simp [injectSchemaStep, h]

theorem runInjectCalls_pos (opts : TunnelOptions) (ts : String) (attempt : Nat)
    (h : attempt ≠ 0) (lastF : Option TunnelFailure) (args : List String) (intent : String) :
    runInjectCalls opts ts attempt lastF intent args =
      (intent, args.map fun _ => buildFixPrompt opts ts intent (lastF.getD default)) := by
  induction args with
  | nil => rfl
  | cons a as ih =>
    simp only [runInjectCalls, injectSchemaStep_pos opts ts attempt h lastF intent a, ih,
      List.map_cons]

theorem runInjectCalls_zero_fst (opts : TunnelOptions) (ts : String)
    (lastF : Option TunnelFailure) (args : List String) :
    ∀ intent, (runInjectCalls opts ts 0 lastF intent args).1 =
      (lastNonEmptyTrim args).getD intent := by
  induction args with
  | nil => intro intent; rfl
  | cons a as ih =>
    intro intent
    simp only [runInjectCalls, lastNonEmptyTrim]
    rw [ih]
    cases h : lastNonEmptyTrim as with
    | some t => simp [h]
    | none =>
      by_cases hc : jsTrim a = ""
      · simp [h, hc, injectSchemaStep]
      · simp [h, hc, injectSchemaStep]

/-! ## The trace invariant of the retry loop -/

theorem runGo_trace {ε : Type} (opts : TunnelOptions) (ts : String) (validate : Validator)
    (runner : RunnerModel ε) :
    ∀ (fuel attempt : Nat) (intent : String) (lastF : Option TunnelFailure)
      (recs : List (AttemptRecord ε)),
      ∃ extra res,
        runGo opts ts validate runner fuel attempt intent lastF recs = (recs ++ extra, res) ∧
        traceChain opts ts runner intent lastF attempt extra := by
  intro fuel
  induction fuel with
  | zero =>
    intro attempt intent lastF recs
    refine ⟨[], .error (.maxRetries
      ("Failed to produce valid output after " ++ toString (opts.maxRetries + 1)
        ++ " attempts.") (recs.filterMap (·.failure))), ?_, trivial⟩
    simp [runGo]
  | succ fuel ih =>
    intro attempt intent lastF recs
    cases ho : runner.output ⟨attempt, opts.maxRetries, lastF⟩
        ((runInjectCalls opts ts attempt lastF intent
          (runner.injectArgs ⟨attempt, opts.maxRetries, lastF⟩)).2) with
    | error e =>
      refine ⟨[⟨⟨attempt, opts.maxRetries, lastF⟩, intent,
        runner.injectArgs ⟨attempt, opts.maxRetries, lastF⟩,
        (runInjectCalls opts ts attempt lastF intent
          (runner.injectArgs ⟨attempt, opts.maxRetries, lastF⟩)).2, .error e, none⟩],
        .error (.runnerError e), ?_, ?_⟩
      · simp only [runGo, ho]
      · exact ⟨rfl, rfl, rfl, rfl, trivial⟩
    | ok raw =>
      cases hf : failureFromRaw validate raw with
      | none =>
        refine ⟨[⟨⟨attempt, opts.maxRetries, lastF⟩, intent,
          runner.injectArgs ⟨attempt, opts.maxRetries, lastF⟩,
          (runInjectCalls opts ts attempt lastF intent
            (runner.injectArgs ⟨attempt, opts.maxRetries, lastF⟩)).2, .ok raw, none⟩],
          successResult validate raw, ?_, ?_⟩
        · simp only [runGo, ho, hf]
        · exact ⟨rfl, rfl, rfl, rfl, trivial⟩
      | some f =>
        obtain ⟨extra, res, heq, hchain⟩ := ih (attempt + 1)
          ((runInjectCalls opts ts attempt lastF intent
            (runner.injectArgs ⟨attempt, opts.maxRetries, lastF⟩)).1) (some f)
          (recs ++ [⟨⟨attempt, opts.maxRetries, lastF⟩, intent,
            runner.injectArgs ⟨attempt, opts.maxRetries, lastF⟩,
            (runInjectCalls opts ts attempt lastF intent
              (runner.injectArgs ⟨attempt, opts.maxRetries, lastF⟩)).2, .ok raw, some f⟩])
        refine ⟨⟨⟨attempt, opts.maxRetries, lastF⟩, intent,
          runner.injectArgs ⟨attempt, opts.maxRetries, lastF⟩,
          (runInjectCalls opts ts attempt lastF intent
            (runner.injectArgs ⟨attempt, opts.maxRetries, lastF⟩)).2, .ok raw, some f⟩ :: extra,
          res, ?_, ?_⟩
        · simp only [runGo, ho, hf]
          rw [heq]
          simp
        · exact ⟨rfl, rfl, rfl, rfl, hchain⟩

theorem traceChain_intent_pos {ε : Type} (opts : TunnelOptions) (ts : String)
    (runner : RunnerModel ε) :
    ∀ (extra : List (AttemptRecord ε)) (intent : String) (lastF : Option TunnelFailure)
      (attempt : Nat), attempt ≠ 0 →
      traceChain opts ts runner intent lastF attempt extra →
      ∀ r ∈ extra, r.intentBefore = intent := by
  intro extra
  induction extra with
  | nil => intro intent lastF attempt _ _ r hr; cases hr
  | cons x xs ih =>
    intro intent lastF attempt ha hc r hr
    obtain ⟨hctx, hint, hargs, hprompts, htail⟩ := hc
    rcases List.mem_cons.mp hr with h | h
    · rw [h]; exact hint
    · have h1 : (runInjectCalls opts ts attempt lastF intent x.args).1 = intent := by
        rw [runInjectCalls_pos opts ts attempt ha lastF x.args intent]
      rw [h1] at htail
      exact ih intent x.failure (attempt + 1) (by omega) htail r h

theorem traceChain_records {ε : Type} (opts : TunnelOptions) (ts : String)
    (runner : RunnerModel ε) :
    ∀ (extra : List (AttemptRecord ε)) (intent : String) (lastF : Option TunnelFailure)
      (attempt : Nat),
      traceChain opts ts runner intent lastF attempt extra →
      ∀ r ∈ extra,
        r.ctx.maxRetries = opts.maxRetries ∧
        r.args = runner.injectArgs r.ctx ∧
        r.prompts =
          (runInjectCalls opts ts r.ctx.attempt r.ctx.lastFailure r.intentBefore r.args).2 := by
  intro extra
  induction extra with
  | nil => intro intent lastF attempt _ r hr; cases hr
  | cons x xs ih =>
    intro intent lastF attempt hc r hr
    obtain ⟨hctx, hint, hargs, hprompts, htail⟩ := hc
    rcases List.mem_cons.mp hr with h | h
    · subst h
      refine ⟨?_, hargs, ?_⟩
      · rw [hctx]
      · rw [hctx, hint]
        exact hprompts
    · exact ih _ _ _ htail r h

theorem traceChain_attempts {ε : Type} (opts : TunnelOptions) (ts : String)
    (runner : RunnerModel ε) :
    ∀ (extra : List (AttemptRecord ε)) (intent : String) (lastF : Option TunnelFailure)
      (attempt : Nat),
      traceChain opts ts runner intent lastF attempt extra →
      extra.map (fun r => r.ctx.attempt) = List.range' attempt extra.length := by
  intro extra
  induction extra with
  | nil => intro intent lastF attempt _; simp
  | cons x xs ih =>
    intro intent lastF attempt hc
    obtain ⟨hctx, hint, hargs, hprompts, htail⟩ := hc
    simp only [List.map_cons, List.length_cons, List.range'_succ]
    rw [hctx, ih _ _ _ htail]

theorem traceChain_adjacent {ε : Type} (opts : TunnelOptions) (ts : String)
    (runner : RunnerModel ε) :
    ∀ (extra : List (AttemptRecord ε)) (intent : String) (lastF : Option TunnelFailure)
      (attempt : Nat),
      traceChain opts ts runner intent lastF attempt extra →
      ∀ pre r1 r2 post, extra = pre ++ r1 :: r2 :: post →
        r2.ctx.lastFailure = r1.failure := by
  intro extra
  induction extra with
  | nil =>
    intro intent lastF attempt _ pre r1 r2 post h
    cases pre <;> simp at h
  | cons x xs ih =>
    intro intent lastF attempt hc pre r1 r2 post heq
    obtain ⟨hctx, hint, hargs, hprompts, htail⟩ := hc
    cases pre with
    | nil =>
      simp only [List.nil_append, List.cons.injEq] at heq
      obtain ⟨h1, h2⟩ := heq
      rw [h2] at htail
      obtain ⟨hctx2, _, _, _, _⟩ := htail
      rw [hctx2, h1]
    | cons y pre2 =>
      simp only [List.cons_append, List.cons.injEq] at heq
      exact ih _ _ _ htail pre2 r1 r2 post heq.2

theorem run_trace {ε : Type} (opts : TunnelOptions) (ts : String) (validate : Validator)
    (runner : RunnerModel ε) :
    traceChain opts ts runner "" none 0 (run opts ts validate runner).1 := by
  obtain ⟨extra, res, heq, hc⟩ :=
    runGo_trace opts ts validate runner (opts.maxRetries + 1) 0 "" none []
  unfold run
  rw [heq]
  simpa using hc

/-- For every record of a run's trace at a positive attempt, the locked intent
it starts from is the intent produced by the attempt-0 `injectSchema` calls. -/
theorem run_intent_pos {ε : Type} (opts : TunnelOptions) (ts : String) (validate : Validator)
    (runner : RunnerModel ε) :
    ∀ r ∈ (run opts ts validate runner).1, r.ctx.attempt ≠ 0 →
      r.intentBefore =
        (runInjectCalls opts ts 0 none ""
          (runner.injectArgs ⟨0, opts.maxRetries, none⟩)).1 := by
  have hc := run_trace opts ts validate runner
  cases htr : (run opts ts validate runner).1 with
  | nil => intro r hr; cases hr
  | cons x xs =>
    rw [htr] at hc
    obtain ⟨hctx, hint, hargs, hprompts, htail⟩ := hc
    intro r hr ha
    rcases List.mem_cons.mp hr with h | h
    · subst h
      rw [hctx] at ha
      exact absurd rfl ha
    · have h2 := traceChain_intent_pos opts ts runner xs _ _ 1 (by omega) htail r h
      rw [h2, hargs, hctx]

/-! ## Claim C10 -/

/-- Claim C10: during attempt 0 every `injectSchema` call whose trimmed argument
is non-empty overwrites the locked intent, so the final locked intent is the
trim of the last non-empty call (else the starting intent); in a run, every
positive-attempt record therefore starts from the trim of the last non-empty
attempt-0 call, or `""` when there is none; and a corrective prompt built from
an empty intent omits the original-context section entirely. -/
theorem claim_C10_intent_overwrite (opts : TunnelOptions) (ts : String)
    (lastF : Option TunnelFailure) (args : List String) (intent : String) :
    ((runInjectCalls opts ts 0 lastF intent args).1 = (lastNonEmptyTrim args).getD intent) ∧
    ((∀ a ∈ args, jsTrim a = "") → (runInjectCalls opts ts 0 lastF intent args).1 = intent) ∧
    (∀ (ε : Type) (validate : Validator) (runner : RunnerModel ε),
      runner.injectArgs ⟨0, opts.maxRetries, none⟩ = args →
      ∀ r ∈ (run opts ts validate runner).1, r.ctx.attempt ≠ 0 →
        r.intentBefore = (lastNonEmptyTrim args).getD "") ∧
    (∀ f : TunnelFailure, buildFixPrompt opts ts "" f =
      String.intercalate "\n\n"
        ((match opts.systemPrompt with
          | some sp => if jsTrim sp ≠ "" then [jsTrim sp] else []
          | none => []) ++
         ["Your previous response was invalid.",
          "Return ONLY corrected JSON.",
          STRICT_RULES ts,
          "Validation problems:\n" ++ f.message] ++
         (match f with
          | .schemaFail _ _ _ issues => ["Schema issues:\n" ++ issues]
          | _ => []) ++
         ["Previous output:\n```text\n" ++ truncate opts f.raw ++ "\n```"])) := by
  have hempty : ∀ as, (∀ a ∈ as, jsTrim a = "") → lastNonEmptyTrim as = none := by
    intro as
    induction as with
    | nil => intro _; rfl
    | cons a as2 ih =>
      intro h
      have ha := h a (by simp)
      have htail := ih (fun b hb => h b (by simp [hb]))
      simp [lastNonEmptyTrim, htail, ha]
  refine ⟨runInjectCalls_zero_fst opts ts lastF args intent, ?_, ?_, ?_⟩
  · intro h
    rw [runInjectCalls_zero_fst opts ts lastF args intent, hempty args h]
    rfl
  · intro ε validate runner hargs r hr ha
    rw [run_intent_pos opts ts validate runner r hr ha, hargs,
      runInjectCalls_zero_fst opts ts none args ""]
  · intro f
    have h0 : jsTrim "" = "" := rfl
    simp [buildFixPrompt, h0]

/-- Witness for C10: the runner calls `injectSchema` four times on attempt 0;
the locked intent ends as the trim of the last non-empty call. -/
theorem claim_C10_witness :
    (runInjectCalls ⟨1, none, "Output", 4000⟩ "T" 0 none "" ["first", "  ", "second  ", ""]).1 =
      "second" :=
  (claim_C10_intent_overwrite ⟨1, none, "Output", 4000⟩ "T" none
    ["first", "  ", "second  ", ""] "").1.trans (by rfl)

/-! ## Claim C3 -/

/-- Claim C3: with a runner that calls `injectSchema` once per attempt, every
corrective prompt of every positive attempt is built from the trimmed
attempt-0 text — whatever text later attempts supply — and since trimming is
idempotent the original-context text embedded by `buildFixPrompt` is exactly
that trimmed attempt-0 text. -/
theorem claim_C3_locked_intent (ε : Type) (opts : TunnelOptions) (ts : String)
    (validate : Validator) (runner : RunnerModel ε) (argOf : TunnelRunContext → String)
    (hone : ∀ ctx, runner.injectArgs ctx = [argOf ctx]) :
    (∀ r ∈ (run opts ts validate runner).1, r.ctx.attempt ≠ 0 →
      ∀ f, r.ctx.lastFailure = some f →
        r.prompts = [buildFixPrompt opts ts (jsTrim (argOf ⟨0, opts.maxRetries, none⟩)) f]) ∧
    jsTrim (jsTrim (argOf ⟨0, opts.maxRetries, none⟩)) =
      jsTrim (argOf ⟨0, opts.maxRetries, none⟩) := by
  constructor
  · intro r hr ha f hf
    have hint : r.intentBefore = jsTrim (argOf ⟨0, opts.maxRetries, none⟩) := by
      rw [run_intent_pos opts ts validate runner r hr ha, hone,
        runInjectCalls_zero_fst opts ts none [argOf ⟨0, opts.maxRetries, none⟩] ""]
      by_cases hc : jsTrim (argOf ⟨0, opts.maxRetries, none⟩) = ""
      · simp [lastNonEmptyTrim, hc]
      · simp [lastNonEmptyTrim, hc]
    have hrec := (traceChain_records opts ts runner _ _ _ _
      (run_trace opts ts validate runner) r hr).2.2
    rw [hrec, (traceChain_records opts ts runner _ _ _ _
      (run_trace opts ts validate runner) r hr).2.1, hone,
      runInjectCalls_pos opts ts r.ctx.attempt ha r.ctx.lastFailure
        [argOf r.ctx] r.intentBefore, hf, hint]
    rfl
  · exact jsTrim_idem _

/-- Witness for C3: `fickleRunner` supplies different text on later attempts,
yet every corrective prompt embeds the trimmed attempt-0 text. -/
theorem claim_C3_witness :
    (∀ ctx, fickleRunner.injectArgs ctx =
      [if ctx.attempt = 0 then "  original intent  " else "different text"]) ∧
    (∀ r ∈ (run ⟨1, none, "Output", 4000⟩ "T" rejectAllValidator fickleRunner).1,
      r.ctx.attempt ≠ 0 → ∀ f, r.ctx.lastFailure = some f →
        r.prompts = [buildFixPrompt ⟨1, none, "Output", 4000⟩ "T"
          (jsTrim (if (0 : Nat) = 0 then "  original intent  " else "different text")) f]) :=
  ⟨fun _ => rfl,
   (claim_C3_locked_intent Unit ⟨1, none, "Output", 4000⟩ "T" rejectAllValidator fickleRunner
     (fun ctx => if ctx.attempt = 0 then "  original intent  " else "different text")
     (fun _ => rfl)).1⟩

/-! ## Claim C6 -/

/-- Claim C6: in a run, every positive-attempt record whose context carries the
previous failure produced exactly the corrective prompts
`buildFixPrompt intent failure` (one per `injectSchema` call); the failure in
the context is the failure recorded by the immediately preceding attempt; and
`buildFixPrompt` is, in order: the trimmed system prompt when configured, the
fixed preamble declaring the previous response invalid, the strict output
rules with the rendered schema, the previous failure's message, the formatted
schema issues exactly when the failure is a schema mismatch, the intent under
the original-context label (omitted when empty), and the truncated previous
output. -/
theorem claim_C6_fix_prompt_structure (ε : Type) (opts : TunnelOptions) (ts : String)
    (validate : Validator) (runner : RunnerModel ε) :
    (∀ r ∈ (run opts ts validate runner).1, r.ctx.attempt ≠ 0 →
      ∀ f, r.ctx.lastFailure = some f →
        r.prompts = r.args.map (fun _ => buildFixPrompt opts ts r.intentBefore f)) ∧
    (∀ pre r1 r2 post, (run opts ts validate runner).1 = pre ++ r1 :: r2 :: post →
      r2.ctx.lastFailure = r1.failure) ∧
    (∀ userPrompt f, buildFixPrompt opts ts userPrompt f =
      String.intercalate "\n\n"
        ((match opts.systemPrompt with
          | some sp => if jsTrim sp ≠ "" then [jsTrim sp] else []
          | none => []) ++
         ["Your previous response was invalid.",
          "Return ONLY corrected JSON.",
          STRICT_RULES ts,
          "Validation problems:\n" ++ f.message] ++
         (match f with
          | .schemaFail _ _ _ issues => ["Schema issues:\n" ++ issues]
          | _ => []) ++
         (if jsTrim userPrompt ≠ "" then
           ["Original request context:\n" ++ jsTrim userPrompt] else []) ++
         ["Previous output:\n```text\n" ++ truncate opts f.raw ++ "\n```"])) := by
  refine ⟨?_, ?_, fun _ _ => rfl⟩
  · intro r hr ha f hf
    have hrec := traceChain_records opts ts runner _ _ _ _
      (run_trace opts ts validate runner) r hr
    rw [hrec.2.2, hrec.2.1,
      runInjectCalls_pos opts ts r.ctx.attempt ha r.ctx.lastFailure
        (runner.injectArgs r.ctx) r.intentBefore, hf]
    rfl
  · intro pre r1 r2 post h
    exact traceChain_adjacent opts ts runner _ _ _ _
      (run_trace opts ts validate runner) pre r1 r2 post h

/-- Witness for C6: in the recovering run, the attempt-1 record carries the
attempt-0 failure and its prompt is the corrective prompt for it. -/
theorem claim_C6_witness :
    ∀ r ∈ (run ⟨2, none, "Output", 4000⟩ "T" fieldANumberValidator recoveringRunner).1,
      r.ctx.attempt ≠ 0 → ∀ f, r.ctx.lastFailure = some f →
        r.prompts = r.args.map (fun _ =>
          buildFixPrompt ⟨2, none, "Output", 4000⟩ "T" r.intentBefore f) :=
  (claim_C6_fix_prompt_structure Unit ⟨2, none, "Output", 4000⟩ "T" fieldANumberValidator
    recoveringRunner).1

/-! ## Claim C5 -/

theorem streamPushAll_length (validate : Validator) :
    ∀ (chunks : List String) (buf : String),
      ((streamPushAll validate buf chunks).2).length = chunks.length := by
  intro chunks
  induction chunks with
  | nil => intro buf; rfl
  | cons c cs ih =>
    intro buf
    simp only [streamPushAll, streamPush, List.length_cons]
    rw [ih]

theorem streamPushAll_buffer (validate : Validator) :
    ∀ (chunks : List String) (buf : String),
      (streamPushAll validate buf chunks).1 = chunks.foldl (· ++ ·) buf := by
  intro chunks
  induction chunks with
  | nil => intro buf; rfl
  | cons c cs ih =>
    intro buf
    simp only [streamPushAll, streamPush, List.foldl_cons]
    exact ih (buf ++ c)

theorem streamPushAll_getLast (validate : Validator) :
    ∀ (chunks : List String) (buf : String), chunks ≠ [] →
      ((streamPushAll validate buf chunks).2).getLast? =
        some (streamClassify validate (chunks.foldl (· ++ ·) buf)) := by
  intro chunks
  induction chunks with
  | nil => intro buf h; exact absurd rfl h
  | cons c cs ih =>
    intro buf _
    by_cases hcs : cs = []
    · subst hcs
      simp [streamPushAll, streamPush]
    · have hlast : ((streamPushAll validate buf (c :: cs)).2).getLast? =
          ((streamPushAll validate (buf ++ c) cs).2).getLast? := by
        cases hl : (streamPushAll validate (buf ++ c) cs).2 with
        | nil =>
          have hlen := streamPushAll_length validate cs (buf ++ c)
          rw [hl] at hlen
          exact absurd (List.length_eq_zero.mp hlen.symm) hcs
        | cons y ys =>
          simp only [streamPushAll, streamPush]
          rw [hl, List.getLast?_cons_cons]
      rw [hlast, ih (buf ++ c) hcs]
      rfl

/-- Claim C5: each push of a stream validator is fully determined by the
accumulated buffer — appending the chunk and classifying the whole buffer —
so the final result does not depend on chunk boundaries; and the
classification maps the extraction outcome to `noJsonYet` / `invalidJson` /
`invalidSchema` / `valid` exactly as the claim states. -/
theorem claim_C5_stream_boundary_independence (validate : Validator)
    (chunks1 chunks2 : List String)
    (h : chunks1.foldl (· ++ ·) "" = chunks2.foldl (· ++ ·) "")
    (h1 : chunks1 ≠ []) (h2 : chunks2 ≠ []) :
    (((streamPushAll validate "" chunks1).2).getLast? =
      ((streamPushAll validate "" chunks2).2).getLast?) ∧
    ((streamPushAll validate "" chunks1).1 = (streamPushAll validate "" chunks2).1) ∧
    (∀ buf chunk, streamPush validate buf chunk =
      (buf ++ chunk, streamClassify validate (buf ++ chunk))) ∧
    (∀ b msg, extractAndParseJson b = .noJson msg →
      streamClassify validate b = .noJsonYet b) ∧
    (∀ b msg span, extractAndParseJson b = .parseError msg span →
      streamClassify validate b = .invalidJson b msg (some span)) ∧
    (∀ b span v err, extractAndParseJson b = .found span v → validate (some v) = .error err →
      streamClassify validate b =
        .invalidSchema b "Output JSON did not match the schema." (formatZodIssues err) span) ∧
    (∀ b span v d, extractAndParseJson b = .found span v → validate (some v) = .ok d →
      streamClassify validate b = .valid b d span) := by
  refine ⟨?_, ?_, fun _ _ => rfl, ?_, ?_, ?_, ?_⟩
  · rw [streamPushAll_getLast validate chunks1 "" h1,
      streamPushAll_getLast validate chunks2 "" h2, h]
  · rw [streamPushAll_buffer validate chunks1 "",
      streamPushAll_buffer validate chunks2 "", h]
  · intro b msg hb; simp only [streamClassify, hb]
  · intro b msg span hb; simp only [streamClassify, hb]
  · intro b span v err hb hv; simp only [streamClassify, hb, hv]
  · intro b span v d hb hv; simp only [streamClassify, hb, hv]

/-- Witness for C5: pushing the document split after the key yields the same
final result as pushing it whole. -/
theorem claim_C5_witness :
    ((["\x7b\"a\":", " 1\x7d"] : List String).foldl (· ++ ·) "" =
      (["\x7b\"a\": 1\x7d"] : List String).foldl (· ++ ·) "") ∧
    ((streamPushAll acceptAllValidator "" ["\x7b\"a\":", " 1\x7d"]).2).getLast? =
      ((streamPushAll acceptAllValidator "" ["\x7b\"a\": 1\x7d"]).2).getLast? :=
  ⟨by rfl,
   (claim_C5_stream_boundary_independence acceptAllValidator
     ["\x7b\"a\":", " 1\x7d"] ["\x7b\"a\": 1\x7d"] (by rfl) (by simp) (by simp)).1⟩

/-! ## Claim C1 -/

theorem filterMap_failure_length {ε : Type} :
    ∀ (l : List (AttemptRecord ε)), (∀ r ∈ l, r.failure.isSome) →
      (l.filterMap (·.failure)).length = l.length := by
  intro l
  induction l with
  | nil => intro _; rfl
  | cons x xs ih =>
    intro h
    have hx := h x (by simp)
    cases hfx : x.failure with
    | none => rw [hfx] at hx; simp at hx
    | some f =>
      simp [List.filterMap_cons, hfx, ih (fun r hr => h r (by simp [hr]))]

theorem runGo_allFail {ε : Type} (opts : TunnelOptions) (ts : String) (validate : Validator)
    (runner : RunnerModel ε)
    (H : ∀ ctx ps, ∃ raw f, runner.output ctx ps = .ok raw ∧
        failureFromRaw validate raw = some f) :
    ∀ (fuel attempt : Nat) (intent : String) (lastF : Option TunnelFailure)
      (recs : List (AttemptRecord ε)),
      ∃ extra,
        runGo opts ts validate runner fuel attempt intent lastF recs =
          (recs ++ extra,
           .error (.maxRetries
             ("Failed to produce valid output after " ++ toString (opts.maxRetries + 1)
               ++ " attempts.")
             ((recs ++ extra).filterMap (·.failure)))) ∧
        extra.length = fuel ∧
        (∀ r ∈ extra, r.failure.isSome) := by
  intro fuel
  induction fuel with
  | zero =>
    intro attempt intent lastF recs
    refine ⟨[], ?_, rfl, by simp⟩
    simp [runGo]
  | succ fuel ih =>
    intro attempt intent lastF recs
    obtain ⟨raw, f, ho, hf⟩ := H ⟨attempt, opts.maxRetries, lastF⟩
      ((runInjectCalls opts ts attempt lastF intent
        (runner.injectArgs ⟨attempt, opts.maxRetries, lastF⟩)).2)
    obtain ⟨extra, heq, hlen, hsome⟩ := ih (attempt + 1)
      ((runInjectCalls opts ts attempt lastF intent
        (runner.injectArgs ⟨attempt, opts.maxRetries, lastF⟩)).1) (some f)
      (recs ++ [⟨⟨attempt, opts.maxRetries, lastF⟩, intent,
        runner.injectArgs ⟨attempt, opts.maxRetries, lastF⟩,
        (runInjectCalls opts ts attempt lastF intent
          (runner.injectArgs ⟨attempt, opts.maxRetries, lastF⟩)).2, .ok raw, some f⟩])
    refine ⟨⟨⟨attempt, opts.maxRetries, lastF⟩, intent,
      runner.injectArgs ⟨attempt, opts.maxRetries, lastF⟩,
      (runInjectCalls opts ts attempt lastF intent
        (runner.injectArgs ⟨attempt, opts.maxRetries, lastF⟩)).2, .ok raw, some f⟩ :: extra,
      ?_, by simp [hlen], ?_⟩
    · simp only [runGo, ho, hf]
      rw [heq]
      simp
    · intro r hr
      rcases List.mem_cons.mp hr with hh | hh
      · rw [hh]; rfl
      · exact hsome r hh

/-- Claim C1: when every attempt's output fails extraction or validation, the
run performs exactly `maxRetries + 1` attempts and fails with the
max-retries error whose failure list has exactly one record per attempt, in
attempt order, and whose message states the attempt count. -/
theorem claim_C1_max_retries (ε : Type) (opts : TunnelOptions) (ts : String)
    (validate : Validator) (runner : RunnerModel ε)
    (H : ∀ ctx ps, ∃ raw f, runner.output ctx ps = .ok raw ∧
        failureFromRaw validate raw = some f) :
    ∃ trace,
      run opts ts validate runner =
        (trace,
         .error (.maxRetries
           ("Failed to produce valid output after " ++ toString (opts.maxRetries + 1)
             ++ " attempts.")
           (trace.filterMap (·.failure)))) ∧
      trace.length = opts.maxRetries + 1 ∧
      (trace.filterMap (·.failure)).length = opts.maxRetries + 1 ∧
      (∀ r ∈ trace, r.failure.isSome) ∧
      trace.map (fun r => r.ctx.attempt) = List.range' 0 (opts.maxRetries + 1) := by
  obtain ⟨extra, heq, hlen, hsome⟩ :=
    runGo_allFail opts ts validate runner H (opts.maxRetries + 1) 0 "" none []
  obtain ⟨extra2, res2, heq2, hchain⟩ :=
    runGo_trace opts ts validate runner (opts.maxRetries + 1) 0 "" none []
  have hx : extra2 = extra := by
    have honly := heq2.symm.trans heq
    have h1 := congrArg Prod.fst honly
    simpa using h1
  have hmap := traceChain_attempts opts ts runner extra2 _ _ _ hchain
  rw [hx, hlen] at hmap
  refine ⟨extra, ?_, hlen, ?_, hsome, hmap⟩
  · unfold run
    rw [heq]
    simp
  · rw [filterMap_failure_length extra hsome, hlen]

/-- Witness for C1 at `maxRetries = 1` with a runner that never produces
JSON: the failure list has exactly 2 entries. -/
theorem claim_C1_witness :
    (∀ ctx ps, ∃ raw f, proseRunner.output ctx ps = .ok raw ∧
        failureFromRaw acceptAllValidator raw = some f) ∧
    ∃ trace,
      run ⟨1, none, "Output", 4000⟩ "T" acceptAllValidator proseRunner =
        (trace,
         .error (.maxRetries "Failed to produce valid output after 2 attempts."
           (trace.filterMap (·.failure)))) ∧
      trace.length = 2 ∧
      (trace.filterMap (·.failure)).length = 2 := by
  have H : ∀ ctx ps, ∃ raw f, proseRunner.output ctx ps = .ok raw ∧
      failureFromRaw acceptAllValidator raw = some f :=
    fun _ _ => ⟨"no json at all",
      .noJson "No JSON object/array found in model output." "no json at all", rfl, rfl⟩
  refine ⟨H, ?_⟩
  obtain ⟨trace, h1, h2, h3, _⟩ :=
    claim_C1_max_retries Unit ⟨1, none, "Output", 4000⟩ "T" acceptAllValidator proseRunner H
  exact ⟨trace, h1, h2, h3⟩

/-! ## Claim C2 -/

theorem runGo_successAt {ε : Type} (opts : TunnelOptions) (ts : String) (validate : Validator)
    (runner : RunnerModel ε) (k : Nat)
    (Hlt : ∀ ctx ps, ctx.attempt < k → ∃ raw f, runner.output ctx ps = .ok raw ∧
        failureFromRaw validate raw = some f)
    (Hk : ∀ ctx ps, ctx.attempt = k → ∃ raw, runner.output ctx ps = .ok raw ∧
        failureFromRaw validate raw = none) :
    ∀ (fuel attempt : Nat) (intent : String) (lastF : Option TunnelFailure)
      (recs : List (AttemptRecord ε)),
      attempt ≤ k → k < attempt + fuel →
      ∃ extra raw,
        runGo opts ts validate runner fuel attempt intent lastF recs =
          (recs ++ extra, successResult validate raw) ∧
        failureFromRaw validate raw = none ∧
        extra.length = (k - attempt) + 1 ∧
        (extra.getLast?).map (·.failure) = some none := by
  intro fuel
  induction fuel with
  | zero => intro attempt intent lastF recs hle hlt; omega
  | succ fuel ih =>
    intro attempt intent lastF recs hle hlt
    by_cases hak : attempt = k
    · subst hak
      obtain ⟨raw, ho, hf⟩ := Hk ⟨attempt, opts.maxRetries, lastF⟩
        ((runInjectCalls opts ts attempt lastF intent
          (runner.injectArgs ⟨attempt, opts.maxRetries, lastF⟩)).2) rfl
      refine ⟨[⟨⟨attempt, opts.maxRetries, lastF⟩, intent,
        runner.injectArgs ⟨attempt, opts.maxRetries, lastF⟩,
        (runInjectCalls opts ts attempt lastF intent
          (runner.injectArgs ⟨attempt, opts.maxRetries, lastF⟩)).2, .ok raw, none⟩],
        raw, ?_, hf, by simp, by simp⟩
      simp only [runGo, ho, hf]
    · have hlt2 : attempt < k := by omega
      obtain ⟨raw, f, ho, hf⟩ := Hlt ⟨attempt, opts.maxRetries, lastF⟩
        ((runInjectCalls opts ts attempt lastF intent
          (runner.injectArgs ⟨attempt, opts.maxRetries, lastF⟩)).2) hlt2
      obtain ⟨extra, raw2, heq, hf2, hlen, hlast⟩ := ih (attempt + 1)
        ((runInjectCalls opts ts attempt lastF intent
          (runner.injectArgs ⟨attempt, opts.maxRetries, lastF⟩)).1) (some f)
        (recs ++ [⟨⟨attempt, opts.maxRetries, lastF⟩, intent,
          runner.injectArgs ⟨attempt, opts.maxRetries, lastF⟩,
          (runInjectCalls opts ts attempt lastF intent
            (runner.injectArgs ⟨attempt, opts.maxRetries, lastF⟩)).2, .ok raw, some f⟩])
        (by omega) (by omega)
      have hne : extra ≠ [] := by
        intro hz
        rw [hz] at hlen
        simp at hlen
      refine ⟨⟨⟨attempt, opts.maxRetries, lastF⟩, intent,
        runner.injectArgs ⟨attempt, opts.maxRetries, lastF⟩,
        (runInjectCalls opts ts attempt lastF intent
          (runner.injectArgs ⟨attempt, opts.maxRetries, lastF⟩)).2, .ok raw, some f⟩ :: extra,
        raw2, ?_, hf2, ?_, ?_⟩
      · simp only [runGo, ho, hf]
        rw [heq]
        simp
      · simp only [List.length_cons, hlen]
        omega
      · cases hx : extra with
        | nil => exact absurd hx hne
        | cons y ys =>
          rw [hx] at hlast
          rw [List.getLast?_cons_cons]
          exact hlast

/-- Claim C2: if the attempts before `k` all fail and attempt `k`'s output
extracts and validates, the run stops right after attempt `k` with the
schema-validated value: exactly `k + 1` attempts run, no failure record is
added for attempt `k`, and no max-retries error is raised. -/
theorem claim_C2_success_stops (ε : Type) (opts : TunnelOptions) (ts : String)
    (validate : Validator) (runner : RunnerModel ε) (k : Nat)
    (hk : k ≤ opts.maxRetries)
    (Hlt : ∀ ctx ps, ctx.attempt < k → ∃ raw f, runner.output ctx ps = .ok raw ∧
        failureFromRaw validate raw = some f)
    (Hk : ∀ ctx ps, ctx.attempt = k → ∃ raw, runner.output ctx ps = .ok raw ∧
        failureFromRaw validate raw = none) :
    ∃ trace raw data,
      run opts ts validate runner = (trace, .ok data) ∧
      trace.length = k + 1 ∧
      (trace.getLast?).map (·.failure) = some none ∧
      failureFromRaw validate raw = none ∧
      firstValidated validate raw = some data := by
  obtain ⟨extra, raw, heq, hf, hlen, hlast⟩ :=
    runGo_successAt opts ts validate runner k Hlt Hk (opts.maxRetries + 1) 0 "" none []
      (by omega) (by omega)
  obtain ⟨d, hfv, hsr⟩ := successResult_of_no_failure (ε := ε) validate raw hf
  rw [Nat.sub_zero] at hlen
  refine ⟨extra, raw, d, ?_, hlen, hlast, hf, hfv⟩
  unfold run
  rw [heq, hsr]
  simp

/-- Witness for C2: the recovering runner fails on attempt 0 and succeeds on
attempt 1 under `maxRetries = 2`. -/
theorem claim_C2_witness :
    (1 ≤ (⟨2, none, "Output", 4000⟩ : TunnelOptions).maxRetries) ∧
    ∃ trace raw data,
      run ⟨2, none, "Output", 4000⟩ "T" fieldANumberValidator recoveringRunner =
        (trace, .ok data) ∧
      trace.length = 2 ∧
      (trace.getLast?).map (·.failure) = some none ∧
      failureFromRaw fieldANumberValidator raw = none ∧
      firstValidated fieldANumberValidator raw = some data := by
  refine ⟨by decide, ?_⟩
  refine claim_C2_success_stops Unit ⟨2, none, "Output", 4000⟩ "T" fieldANumberValidator
    recoveringRunner 1 (by decide) ?_ ?_
  · intro ctx ps hlt
    have h0 : ctx.attempt = 0 := by omega
    refine ⟨"oops \x7b\"a\": \"x\"\x7d", _, ?_, rfl⟩
    show Except.ok (if ctx.attempt = 0 then "oops \x7b\"a\": \"x\"\x7d" else "\x7b\"a\": 1\x7d") = _
    rw [h0]
    rfl
  · intro ctx ps hek
    refine ⟨"\x7b\"a\": 1\x7d", ?_, rfl⟩
    show Except.ok (if ctx.attempt = 0 then "oops \x7b\"a\": \"x\"\x7d" else "\x7b\"a\": 1\x7d") = _
    rw [hek]
    rfl

/-! ## Claim C8 -/

theorem runGo_throwAt {ε : Type} (opts : TunnelOptions) (ts : String) (validate : Validator)
    (runner : RunnerModel ε) (k : Nat) (e : ε)
    (Hlt : ∀ ctx ps, ctx.attempt < k → ∃ raw f, runner.output ctx ps = .ok raw ∧
        failureFromRaw validate raw = some f)
    (Hk : ∀ ctx ps, ctx.attempt = k → runner.output ctx ps = .error e) :
    ∀ (fuel attempt : Nat) (intent : String) (lastF : Option TunnelFailure)
      (recs : List (AttemptRecord ε)),
      attempt ≤ k → k < attempt + fuel →
      ∃ extra,
        runGo opts ts validate runner fuel attempt intent lastF recs =
          (recs ++ extra, .error (.runnerError e)) ∧
        extra.length = (k - attempt) + 1 ∧
        (extra.getLast?).map (·.failure) = some none := by
  intro fuel
  induction fuel with
  | zero => intro attempt intent lastF recs hle hlt; omega
  | succ fuel ih =>
    intro attempt intent lastF recs hle hlt
    by_cases hak : attempt = k
    · subst hak
      have ho := Hk ⟨attempt, opts.maxRetries, lastF⟩
        ((runInjectCalls opts ts attempt lastF intent
          (runner.injectArgs ⟨attempt, opts.maxRetries, lastF⟩)).2) rfl
      refine ⟨[⟨⟨attempt, opts.maxRetries, lastF⟩, intent,
        runner.injectArgs ⟨attempt, opts.maxRetries, lastF⟩,
        (runInjectCalls opts ts attempt lastF intent
          (runner.injectArgs ⟨attempt, opts.maxRetries, lastF⟩)).2, .error e, none⟩],
        ?_, by simp, by simp⟩
      simp only [runGo, ho]
    · have hlt2 : attempt < k := by omega
      obtain ⟨raw, f, ho, hf⟩ := Hlt ⟨attempt, opts.maxRetries, lastF⟩
        ((runInjectCalls opts ts attempt lastF intent
          (runner.injectArgs ⟨attempt, opts.maxRetries, lastF⟩)).2) hlt2
      obtain ⟨extra, heq, hlen, hlast⟩ := ih (attempt + 1)
        ((runInjectCalls opts ts attempt lastF intent
          (runner.injectArgs ⟨attempt, opts.maxRetries, lastF⟩)).1) (some f)
        (recs ++ [⟨⟨attempt, opts.maxRetries, lastF⟩, intent,
          runner.injectArgs ⟨attempt, opts.maxRetries, lastF⟩,
          (runInjectCalls opts ts attempt lastF intent
            (runner.injectArgs ⟨attempt, opts.maxRetries, lastF⟩)).2, .ok raw, some f⟩])
        (by omega) (by omega)
      have hne : extra ≠ [] := by
        intro hz
        rw [hz] at hlen
        simp at hlen
      refine ⟨⟨⟨attempt, opts.maxRetries, lastF⟩, intent,
        runner.injectArgs ⟨attempt, opts.maxRetries, lastF⟩,
        (runInjectCalls opts ts attempt lastF intent
          (runner.injectArgs ⟨attempt, opts.maxRetries, lastF⟩)).2, .ok raw, some f⟩ :: extra,
        ?_, ?_, ?_⟩
      · simp only [runGo, ho, hf]
        rw [heq]
        simp
      · simp only [List.length_cons, hlen]
        omega
      · cases hx : extra with
        | nil => exact absurd hx hne
        | cons y ys =>
          rw [hx] at hlast
          rw [List.getLast?_cons_cons]
          exact hlast

/-- Claim C8: if the runner throws on the first attempt it reaches after a
string of failures, the error propagates out of the run unchanged: the loop
performs no further attempts, records no failure for the throwing attempt,
and does not convert the error into a max-retries error. -/
theorem claim_C8_runner_error_propagates (ε : Type) (opts : TunnelOptions) (ts : String)
    (validate : Validator) (runner : RunnerModel ε) (k : Nat) (e : ε)
    (hk : k ≤ opts.maxRetries)
    (Hlt : ∀ ctx ps, ctx.attempt < k → ∃ raw f, runner.output ctx ps = .ok raw ∧
        failureFromRaw validate raw = some f)
    (Hk : ∀ ctx ps, ctx.attempt = k → runner.output ctx ps = .error e) :
    ∃ trace,
      run opts ts validate runner = (trace, .error (.runnerError e)) ∧
      trace.length = k + 1 ∧
      (trace.getLast?).map (·.failure) = some none := by
  obtain ⟨extra, heq, hlen, hlast⟩ :=
    runGo_throwAt opts ts validate runner k e Hlt Hk (opts.maxRetries + 1) 0 "" none []
      (by omega) (by omega)
  rw [Nat.sub_zero] at hlen
  refine ⟨extra, ?_, hlen, hlast⟩
  unfold run
  rw [heq]
  simp

/-- Witness for C8: the throwing runner fails attempt 0 and throws
`"network down"` on attempt 1; the run propagates that exact error. -/
theorem claim_C8_witness :
    (1 ≤ (⟨2, none, "Output", 4000⟩ : TunnelOptions).maxRetries) ∧
    ∃ trace,
      run ⟨2, none, "Output", 4000⟩ "T" acceptAllValidator throwingRunner =
        (trace, .error (.runnerError "network down")) ∧
      trace.length = 2 ∧
      (trace.getLast?).map (·.failure) = some none := by
  refine ⟨by decide, ?_⟩
  refine claim_C8_runner_error_propagates String ⟨2, none, "Output", 4000⟩ "T"
    acceptAllValidator throwingRunner 1 "network down" (by decide) ?_ ?_
  · intro ctx ps hlt
    have h0 : ctx.attempt = 0 := by omega
    refine ⟨"no json at all", _, ?_, rfl⟩
    show (if ctx.attempt = 0 then Except.ok "no json at all" else Except.error "network down") = _
    rw [h0]
    rfl
  · intro ctx ps hek
    show (if ctx.attempt = 0 then Except.ok "no json at all" else Except.error "network down") = _
    rw [hek]
    rfl

end ZodCast
